import Mathlib

/-!
Verification of the soft (bit-banged) I2C master driver from
NUCLEO-F103RB_CL_Software_I2C (Core/Src/soft_i2c.c).

Shallow embedding: the only state the driver keeps between pin operations is
the master-driven level of the two open-drain lines (SCL, SDA).  We model a
bus state `S` holding the master-driven level of each line (`true` = released
to float, pulled high if nobody drives low; `false` = actively driven low)
plus a counter of SDA reads performed so far.  The slave / external world is
an environment `env : Nat → Bool` giving the external contribution to the SDA
line at the k-th read; an open-drain read returns the wired-AND of the
master's drive and the environment.  Every pin operation additionally emits
an event into a trace, so line-toggling behaviour is fully observable.
-/

/-- One observable pin-level event of the driver. -/
inductive Ev where
  | sclW : Bool → Ev      -- master writes the clock line (false = drive low)
  | sdaW : Bool → Ev      -- master writes the data line (false = drive low)
  | delay : Nat → Ev      -- busy wait, microseconds
  | sdaR : Bool → Ev      -- master samples the data line; payload = value read
deriving DecidableEq, Repr

/-- Instantaneous bus state: master-driven level of each line (`true` =
released / floats high) and the number of SDA samples taken so far. -/
structure S where
  scl : Bool
  sda : Bool
  reads : Nat
deriving DecidableEq, Repr

-- Timing constants from soft_i2c.h (microseconds).
def I2C_SCL_LOW_DELAY : Nat := 5
def I2C_SCL_HIGH_DELAY : Nat := 5
def I2C_START_DELAY : Nat := 5
def I2C_STOP_DELAY : Nat := 5

-- Address-range constants from soft_i2c.h.
def I2C_ADDRESS_MIN : Nat := 0x03
def I2C_ADDRESS_MAX : Nat := 0x77

/-- soft_i2c_scl_write: write the master-driven SCL level. -/
def soft_i2c_scl_write (pinstate : Bool) (s : S) : S × List Ev :=
  ({ s with scl := pinstate }, [Ev.sclW pinstate])

/-- soft_i2c_sda_write: write the master-driven SDA level. -/
def soft_i2c_sda_write (pinstate : Bool) (s : S) : S × List Ev :=
  ({ s with sda := pinstate }, [Ev.sdaW pinstate])

/-- i2c_delay_us: busy wait; no bus-state change, only an event. -/
def i2c_delay_us (delay_us : Nat) (s : S) : S × List Ev :=
  (s, [Ev.delay delay_us])

/-- soft_i2c_sda_read: sample SDA.  Open drain: the line reads high only when
both the master and the environment release it. -/
def soft_i2c_sda_read (env : Nat → Bool) (s : S) : Bool × S × List Ev :=
  let v := s.sda && env s.reads
  (v, { s with reads := s.reads + 1 }, [Ev.sdaR v])

/-- soft_i2c_start: with SCL and SDA both high, lower SDA, delay, lower SCL. -/
def soft_i2c_start (s : S) : S × List Ev :=
  let (s1, t1) := soft_i2c_sda_write false s
  let (s2, t2) := i2c_delay_us I2C_START_DELAY s1
  let (s3, t3) := soft_i2c_scl_write false s2
  (s3, t1 ++ t2 ++ t3)

/-- soft_i2c_stop: with SCL low, force SDA low, delay, raise SCL, delay,
raise SDA. -/
def soft_i2c_stop (s : S) : S × List Ev :=
  let (s1, t1) := soft_i2c_sda_write false s
  let (s2, t2) := i2c_delay_us I2C_SCL_LOW_DELAY s1
  let (s3, t3) := soft_i2c_scl_write true s2
  let (s4, t4) := i2c_delay_us I2C_STOP_DELAY s3
  let (s5, t5) := soft_i2c_sda_write true s4
  (s5, t1 ++ t2 ++ t3 ++ t4 ++ t5)

/-- The 8-iteration bit loop of soft_i2c_write8, fuel counting remaining
iterations.  data_byte is a uint8_t, so the left shift truncates mod 256. -/
def soft_i2c_write8_loop (env : Nat → Bool) : Nat → Nat → S → Nat × S × List Ev
  | data_byte, 0, s => (data_byte, s, [])
  | data_byte, i + 1, s =>
    let (s1, t1) :=
      if data_byte &&& 0x80 ≠ 0 then soft_i2c_sda_write true s
      else soft_i2c_sda_write false s
    let data_byte := (data_byte <<< 1) % 256
    let (s2, t2) := i2c_delay_us I2C_SCL_LOW_DELAY s1
    let (s3, t3) := soft_i2c_scl_write true s2
    let (s4, t4) := i2c_delay_us I2C_SCL_HIGH_DELAY s3
    let (s5, t5) := soft_i2c_scl_write false s4
    let (r, s6, t6) := soft_i2c_write8_loop env data_byte i s5
    (r, s6, t1 ++ t2 ++ t3 ++ t4 ++ t5 ++ t6)

/-- soft_i2c_write8: send one byte MSB first (8 clocked bits), then release
SDA and clock a 9th pulse, sampling SDA while SCL is high; returns the raw
sampled level.  The uint8_t parameter is modelled by truncating mod 256. -/
def soft_i2c_write8 (env : Nat → Bool) (data_byte : Nat) (s : S) :
    Bool × S × List Ev :=
  let data_byte := data_byte % 256
  let (_, s1, t1) := soft_i2c_write8_loop env data_byte 8 s
  let (s2, t2) := soft_i2c_sda_write true s1
  let (s3, t3) := i2c_delay_us I2C_SCL_LOW_DELAY s2
  let (s4, t4) := soft_i2c_scl_write true s3
  let (ack, s5, t5) := soft_i2c_sda_read env s4
  let (s6, t6) := i2c_delay_us I2C_SCL_HIGH_DELAY s5
  let (s7, t7) := soft_i2c_scl_write false s6
  (ack, s7, t1 ++ t2 ++ t3 ++ t4 ++ t5 ++ t6 ++ t7)

/-- The 8-iteration bit loop of soft_i2c_read8: raise SCL, sample SDA into
the accumulator (shift left, or in the sampled bit), lower SCL. -/
def soft_i2c_read8_loop (env : Nat → Bool) : Nat → Nat → S → Nat × S × List Ev
  | data_byte, 0, s => (data_byte, s, [])
  | data_byte, i + 1, s =>
    let (s1, t1) := i2c_delay_us I2C_SCL_LOW_DELAY s
    let (s2, t2) := soft_i2c_scl_write true s1
    let data_byte := (data_byte <<< 1) % 256
    let (v, s3, t3) := soft_i2c_sda_read env s2
    let data_byte := if v then data_byte ||| 1 else data_byte
    let (s4, t4) := i2c_delay_us I2C_SCL_HIGH_DELAY s3
    let (s5, t5) := soft_i2c_scl_write false s4
    let (r, s6, t6) := soft_i2c_read8_loop env data_byte i s5
    (r, s6, t1 ++ t2 ++ t3 ++ t4 ++ t5 ++ t6)

/-- soft_i2c_read8: release SDA, clock in 8 bits MSB first, then drive SDA to
the requested ack level and clock a 9th pulse; returns the assembled byte.
Note the source never releases SDA again after driving the ack level. -/
def soft_i2c_read8 (env : Nat → Bool) (ack : Bool) (s : S) :
    Nat × S × List Ev :=
  let (s1, t1) := soft_i2c_sda_write true s
  let (data_byte, s2, t2) := soft_i2c_read8_loop env 0 8 s1
  let (s3, t3) := soft_i2c_sda_write ack s2
  let (s4, t4) := i2c_delay_us I2C_SCL_LOW_DELAY s3
  let (s5, t5) := soft_i2c_scl_write true s4
  let (s6, t6) := i2c_delay_us I2C_SCL_HIGH_DELAY s5
  let (s7, t7) := soft_i2c_scl_write false s6
  (data_byte, s7, t1 ++ t2 ++ t3 ++ t4 ++ t5 ++ t6 ++ t7)

/-- i2c_device_ready: START, write the address byte (address shifted left by
one, R/W bit 0), STOP; device present iff the sampled ack level was low. -/
def i2c_device_ready (env : Nat → Bool) (i2c_address : Nat) (s : S) :
    Bool × S × List Ev :=
  let i2c_address := i2c_address % 256
  let (s1, t1) := soft_i2c_start s
  let (rc, s2, t2) := soft_i2c_write8 env (i2c_address <<< 1) s1
  let (s3, t3) := soft_i2c_stop s2
  (!rc, s3, t1 ++ t2 ++ t3)

/-- The write-phase while loop of i2c_write_read: write write_count bytes
starting at buffer offset p of memory mem (byte memory modelled as a
function; the uint8_t load truncates mod 256 inside soft_i2c_write8). -/
def i2c_write_read_wloop (env : Nat → Bool) (mem : Nat → Nat) :
    Nat → Nat → S → S × List Ev
  | _, 0, s => (s, [])
  | p, write_count + 1, s =>
    let (_, s1, t1) := soft_i2c_write8 env (mem p) s
    let (s2, t2) := i2c_write_read_wloop env mem (p + 1) write_count s1
    (s2, t1 ++ t2)

/-- The read-phase while loop of i2c_write_read: read read_count bytes, each
with soft_i2c_read8(false); the bytes stored through the out pointer are
returned as a list. -/
def i2c_write_read_rloop (env : Nat → Bool) :
    Nat → S → List Nat × S × List Ev
  | 0, s => ([], s, [])
  | read_count + 1, s =>
    let (d, s1, t1) := soft_i2c_read8 env false s
    let (ds, s2, t2) := i2c_write_read_rloop env read_count s1
    (d :: ds, s2, t1 ++ t2)

/-- i2c_write_read: optional write phase (START, address with R/W bit 0, data
bytes, STOP) followed by optional read phase (START, address with R/W bit 1,
data bytes each NACK-parameterised with false, STOP).  A NULL buffer pointer
is modelled by `none` for the write buffer base / `false` for the read
pointer; the uint8_t count parameters truncate mod 256.  Always returns
status 0; the bytes read are returned as a list. -/
def i2c_write_read (env : Nat → Bool) (i2c_address : Nat)
    (write_data : Option Nat) (mem : Nat → Nat) (write_count : Nat)
    (read_data : Bool) (read_count : Nat) (s : S) :
    Nat × List Nat × S × List Ev :=
  let i2c_address := i2c_address % 256
  let write_count := write_count % 256
  let read_count := read_count % 256
  let (s, tw) :=
    match write_data with
    | some p =>
      if write_count ≠ 0 then
        let (s1, t1) := soft_i2c_start s
        let (_, s2, t2) := soft_i2c_write8 env (i2c_address <<< 1) s1
        let (s3, t3) := i2c_write_read_wloop env mem p write_count s2
        let (s4, t4) := soft_i2c_stop s3
        (s4, t1 ++ t2 ++ t3 ++ t4)
      else (s, [])
    | none => (s, [])
  let (ds, s, tr) :=
    if read_data && read_count ≠ 0 then
      let (s1, t1) := soft_i2c_start s
      let (_, s2, t2) := soft_i2c_write8 env ((i2c_address <<< 1) ||| 1) s1
      let (ds, s3, t3) := i2c_write_read_rloop env read_count s2
      let (s4, t4) := soft_i2c_stop s3
      (ds, s4, t1 ++ t2 ++ t3 ++ t4)
    else ([], s, [])
  (0, ds, s, tw ++ tr)

/-- One displayed cell of the scan table: out-of-range padding, a found
device address, or a dash for an absent device. -/
inductive Cell where
  | oor : Cell
  | found : Nat → Cell
  | empty : Nat → Cell
deriving DecidableEq, Repr

/-- The address walk of cl_i2c_scan: addresses addr, addr+1, ... for fuel
steps; out-of-range addresses are reported as Cell.oor without touching the
bus, in-range addresses are probed with i2c_device_ready.  Returns the list
of probed addresses, the displayed cells, the final bus state and the
trace. -/
def cl_i2c_scan_loop (env : Nat → Bool) :
    Nat → Nat → S → List Nat × List Cell × S × List Ev
  | _, 0, s => ([], [], s, [])
  | addr, fuel + 1, s =>
    if addr < I2C_ADDRESS_MIN || addr > I2C_ADDRESS_MAX then
      let (ps, cs, s1, t) := cl_i2c_scan_loop env (addr + 1) fuel s
      (ps, Cell.oor :: cs, s1, t)
    else
      let (rdy, s1, t1) := i2c_device_ready env addr s
      let (ps, cs, s2, t2) := cl_i2c_scan_loop env (addr + 1) fuel s1
      (addr :: ps, (if rdy then Cell.found addr else Cell.empty addr) :: cs,
       s2, t1 ++ t2)

/-- cl_i2c_scan: walk addresses 0 .. I2C_ADDRESS_MAX (the for loop runs
addr <= I2C_ADDRESS_MAX), probing only in-range ones. -/
def cl_i2c_scan (env : Nat → Bool) (s : S) :
    List Nat × List Cell × S × List Ev :=
  cl_i2c_scan_loop env 0 (I2C_ADDRESS_MAX + 1) s

/-! ## Trace observations and expected trace shapes -/

/-- The five events of one transmitted data bit: set SDA to the bit value
while SCL is low, then one full clock pulse with SDA untouched. -/
def bitPulse (v : Bool) : List Ev :=
  [Ev.sdaW v, Ev.delay I2C_SCL_LOW_DELAY, Ev.sclW true,
   Ev.delay I2C_SCL_HIGH_DELAY, Ev.sclW false]

/-- The data-bit pulses of byte b, most significant bit first: with i bits
remaining, the next bit sent is bit (i-1) of b. -/
def msbPulses (b : Nat) : Nat → List Ev
  | 0 => []
  | i + 1 => bitPulse (Nat.testBit b i) ++ msbPulses b i

/-- The ACK phase of a byte write: release SDA, pulse the clock, sampling
SDA (read index r) while the clock is high. -/
def writeAckTail (env : Nat → Bool) (r : Nat) : List Ev :=
  [Ev.sdaW true, Ev.delay I2C_SCL_LOW_DELAY, Ev.sclW true, Ev.sdaR (env r),
   Ev.delay I2C_SCL_HIGH_DELAY, Ev.sclW false]

/-- The five events of one received data bit: clock pulse with SDA sampled
while the clock is high. -/
def readPulse (v : Bool) : List Ev :=
  [Ev.delay I2C_SCL_LOW_DELAY, Ev.sclW true, Ev.sdaR v,
   Ev.delay I2C_SCL_HIGH_DELAY, Ev.sclW false]

/-- The data-bit pulses of a byte read with read indices r, r+1, ... -/
def readPulses (env : Nat → Bool) (r : Nat) : Nat → List Ev
  | 0 => []
  | i + 1 => readPulse (env r) ++ readPulses env (r + 1) i

/-- The ACK phase of a byte read: drive SDA to the ack level, pulse the
clock.  No release of SDA follows. -/
def readAckTail (ack : Bool) : List Ev :=
  [Ev.sdaW ack, Ev.delay I2C_SCL_LOW_DELAY, Ev.sclW true,
   Ev.delay I2C_SCL_HIGH_DELAY, Ev.sclW false]

/-- Expected trace of soft_i2c_start. -/
def startTrace : List Ev :=
  [Ev.sdaW false, Ev.delay I2C_START_DELAY, Ev.sclW false]

/-- Expected trace of soft_i2c_stop. -/
def stopTrace : List Ev :=
  [Ev.sdaW false, Ev.delay I2C_SCL_LOW_DELAY, Ev.sclW true,
   Ev.delay I2C_STOP_DELAY, Ev.sdaW true]

/-- Expected trace of a full soft_i2c_write8 of byte b (b < 256) when the
read counter is r on entry. -/
def write8Trace (env : Nat → Bool) (r : Nat) (b : Nat) : List Ev :=
  msbPulses b 8 ++ writeAckTail env r

/-- Expected trace of a full soft_i2c_read8 with read counter r on entry. -/
def read8Trace (env : Nat → Bool) (r : Nat) (ack : Bool) : List Ev :=
  Ev.sdaW true :: (readPulses env r 8 ++ readAckTail ack)

/-- Number of rising clock edges in a trace. -/
def sclRises (t : List Ev) : Nat :=
  t.countP fun e => match e with | Ev.sclW true => true | _ => false

/-- Number of falling clock edges in a trace. -/
def sclFalls (t : List Ev) : Nat :=
  t.countP fun e => match e with | Ev.sclW false => true | _ => false

/-- The events of a trace that drive the bus or pass time; sampling
events (and in particular the sampled ACK levels) are erased. -/
def ctrl (t : List Ev) : List Ev :=
  t.filter fun e => match e with | Ev.sdaR _ => false | _ => true

/-- The sequence of levels the master writes to SDA. -/
def sdaWrites (t : List Ev) : List Bool :=
  t.filterMap fun e => match e with | Ev.sdaW v => some v | _ => none

/-- The last level written to SCL in a trace, if any. -/
def lastSclW (t : List Ev) : Option Bool :=
  (t.filterMap fun e => match e with | Ev.sclW v => some v | _ => none).getLast?

/-- Replay a trace from given master-driven levels (scl, sda), recording the
master-driven SDA level at every rising clock edge. -/
def sdaAtRises (scl sda : Bool) : List Ev → List Bool
  | [] => []
  | Ev.sclW v :: t => (if v then [sda] else []) ++ sdaAtRises v sda t
  | Ev.sdaW v :: t => sdaAtRises scl v t
  | _ :: t => sdaAtRises scl sda t

/-- Replay a trace from given master-driven levels, collecting the new level
of every SDA write performed while SCL is high (changes of the data line
during a clock-high phase; a START is such a fall, a STOP such a rise). -/
def sdaChangesWhileHigh (scl sda : Bool) : List Ev → List Bool
  | [] => []
  | Ev.sclW v :: t => sdaChangesWhileHigh v sda t
  | Ev.sdaW v :: t =>
    (if scl && v ≠ sda then [v] else []) ++ sdaChangesWhileHigh scl v t
  | _ :: t => sdaChangesWhileHigh scl sda t

/-- The MSB-first numeric value of i environment bits starting at read
index r. -/
def bitsVal (env : Nat → Bool) (r : Nat) : Nat → Nat
  | 0 => 0
  | i + 1 => (cond (env r) 1 0) * 2 ^ i + bitsVal env (r + 1) i

/-- Expected trace of the write phase loop: one write8 trace per byte, read
indices advancing by one per byte (each byte write samples ACK once). -/
def writePhasePulses (env : Nat → Bool) (mem : Nat → Nat) :
    Nat → Nat → Nat → List Ev
  | _, _, 0 => []
  | p, r, n + 1 =>
    write8Trace env r (mem p % 256) ++ writePhasePulses env mem (p + 1) (r + 1) n

/-- Expected trace of the read phase loop: one read8 trace per byte with ack
level false, read indices advancing by eight per byte. -/
def readPhasePulses (env : Nat → Bool) : Nat → Nat → List Ev
  | _, 0 => []
  | r, n + 1 => read8Trace env r false ++ readPhasePulses env (r + 8) n

/-- Expected bytes of the read phase loop. -/
def readPhaseBytes (env : Nat → Bool) : Nat → Nat → List Nat
  | _, 0 => []
  | r, n + 1 => bitsVal env r 8 :: readPhaseBytes env (r + 8) n

/-! ## Characterisation of the byte-write routine -/

lemma write8_loop_bit_branch (d : Nat) (s : S) :
    (if d &&& 0x80 ≠ 0 then soft_i2c_sda_write true s
     else soft_i2c_sda_write false s) =
      soft_i2c_sda_write (Nat.testBit d 7) s := by
  rw [show (0x80 : Nat) = 2 ^ 7 by norm_num, Nat.and_two_pow]
  cases Nat.testBit d 7 <;> simp

lemma testBit7_shl_mod (b k : Nat) (hk : k ≤ 7) :
    Nat.testBit ((b <<< k) % 256) 7 = Nat.testBit b (7 - k) := by
  rw [show (256 : Nat) = 2 ^ 8 by norm_num, Nat.testBit_mod_two_pow,
    Nat.testBit_shiftLeft]
  simp [hk]

lemma shl_mod_shl (x : Nat) : ((x % 256) <<< 1) % 256 = (x <<< 1) % 256 := by
  simp [Nat.shiftLeft_eq]

lemma soft_i2c_write8_loop_eq (env : Nat → Bool) :
    ∀ (i b : Nat) (s : S), i ≤ 8 → b < 256 →
      soft_i2c_write8_loop env ((b <<< (8 - i)) % 256) i s =
        ((b <<< 8) % 256,
         ⟨if i = 0 then s.scl else false,
          if i = 0 then s.sda else Nat.testBit b 0, s.reads⟩,
         msbPulses b i) := by
  intro i
  induction i with
  | zero => intro b s _ _; simp [soft_i2c_write8_loop, msbPulses]
  | succ i ih =>
    intro b s h hb
    have h8 : 8 - (i + 1) = 7 - i := by omega
    have hd7 : Nat.testBit ((b <<< (7 - i)) % 256) 7 = Nat.testBit b i := by
      rw [testBit7_shl_mod b (7 - i) (by omega), show 7 - (7 - i) = i by omega]
    have hshift : (((b <<< (7 - i)) % 256) <<< 1) % 256 = (b <<< (8 - i)) % 256 := by
      rw [shl_mod_shl]
      congr 1
      rw [Nat.shiftLeft_eq, Nat.shiftLeft_eq, Nat.shiftLeft_eq,
        show 8 - i = (7 - i) + 1 by omega, pow_succ]
      ring
    rw [h8]
    simp only [soft_i2c_write8_loop]
    rw [write8_loop_bit_branch]
    simp only [soft_i2c_sda_write, i2c_delay_us, soft_i2c_scl_write, hd7, hshift]
    rw [ih b _ (by omega) hb]
    by_cases h0 : i = 0 <;> simp [h0, msbPulses, bitPulse]

lemma soft_i2c_write8_loop8 (env : Nat → Bool) (d : Nat) (s : S) (hd : d < 256) :
    soft_i2c_write8_loop env d 8 s =
      ((d <<< 8) % 256, ⟨false, Nat.testBit d 0, s.reads⟩, msbPulses d 8) := by
  have h := soft_i2c_write8_loop_eq env 8 d s (le_refl 8) hd
  rw [show (d <<< (8 - 8)) % 256 = d by
    simp [Nat.shiftLeft_eq, Nat.mod_eq_of_lt hd]] at h
  simpa using h

/-- Closed form of soft_i2c_write8: returns the environment bit sampled at
the current read index, leaves SCL driven low and SDA released, bumps the
read counter, and emits the MSB-first bit pulses followed by the ACK
phase. -/
lemma soft_i2c_write8_eq (env : Nat → Bool) (b : Nat) (s : S) :
    soft_i2c_write8 env b s =
      (env s.reads, ⟨false, true, s.reads + 1⟩,
       write8Trace env s.reads (b % 256)) := by
  simp only [soft_i2c_write8]
  rw [soft_i2c_write8_loop8 env (b % 256) s (Nat.mod_lt b (by norm_num))]
  simp [soft_i2c_sda_write, i2c_delay_us, soft_i2c_scl_write, soft_i2c_sda_read,
    write8Trace, writeAckTail]

/-! ## Characterisation of the byte-read routine -/

lemma even_lor_one (x : Nat) (h : x % 2 = 0) : x ||| 1 = x + 1 := by
  apply Nat.eq_of_testBit_eq
  intro i
  match i with
  | 0 => simp [Nat.testBit_lor, Nat.testBit_zero]; omega
  | i + 1 =>
    rw [Nat.testBit_lor, Nat.testBit_add_one, Nat.testBit_add_one,
      Nat.testBit_add_one]
    have h2 : (x + 1) / 2 = x / 2 := by omega
    norm_num [h2]

lemma bitsVal_lt (env : Nat → Bool) : ∀ (i r : Nat), bitsVal env r i < 2 ^ i := by
  intro i
  induction i with
  | zero => intro r; simp [bitsVal]
  | succ i ih =>
    intro r
    have h1 := ih (r + 1)
    have h2 : (cond (env r) 1 0 : Nat) ≤ 1 := by cases env r <;> simp
    have h3 : (2 : Nat) ^ (i + 1) = 2 ^ i + 2 ^ i := by ring
    simp only [bitsVal]
    nlinarith

lemma or_bit (x : Nat) (v : Bool) (h : x % 2 = 0) :
    (if v then x ||| 1 else x) = x + cond v 1 0 := by
  cases v <;> simp [even_lor_one x h]

lemma soft_i2c_read8_loop_eq (env : Nat → Bool) :
    ∀ (i d : Nat) (s : S), d < 256 → s.sda = true →
      soft_i2c_read8_loop env d i s =
        ((d <<< i + bitsVal env s.reads i) % 256,
         ⟨if i = 0 then s.scl else false, s.sda, s.reads + i⟩,
         readPulses env s.reads i) := by
  intro i
  induction i with
  | zero =>
    intro d s hd _
    simp [soft_i2c_read8_loop, bitsVal, readPulses, Nat.mod_eq_of_lt hd]
  | succ i ih =>
    intro d s hd hs
    have hde : (d <<< 1) % 256 % 2 = 0 := by
      rw [Nat.shiftLeft_eq]
      omega
    have hc : (cond (env s.reads) 1 0 : Nat) ≤ 1 := by cases env s.reads <;> simp
    have hlt : (d <<< 1) % 256 + cond (env s.reads) 1 0 < 256 := by
      have := Nat.mod_lt (d <<< 1) (show 0 < 256 by norm_num)
      omega
    simp only [soft_i2c_read8_loop, i2c_delay_us, soft_i2c_scl_write,
      soft_i2c_sda_read, hs, Bool.true_and]
    rw [or_bit _ _ hde]
    rw [ih ((d <<< 1) % 256 + cond (env s.reads) 1 0) ⟨false, true, s.reads + 1⟩
      hlt rfl]
    simp only [Prod.mk.injEq]
    refine ⟨?_, by simp [ite_self]; omega, by simp [readPulses, readPulse]⟩
    simp only [Nat.shiftLeft_eq, bitsVal]
    have hmod : ((d * 2) % 256 + cond (env s.reads) 1 0) * 2 ^ i +
        bitsVal env (s.reads + 1) i ≡
        (d * 2 + cond (env s.reads) 1 0) * 2 ^ i +
        bitsVal env (s.reads + 1) i [MOD 256] :=
      (((Nat.mod_modEq (d * 2) 256).add_right _).mul_right (2 ^ i)).add_right _
    calc (((d * 2) % 256 + cond (env s.reads) 1 0) * 2 ^ i +
            bitsVal env (s.reads + 1) i) % 256
        = ((d * 2 + cond (env s.reads) 1 0) * 2 ^ i +
            bitsVal env (s.reads + 1) i) % 256 := hmod
      _ = (d * 2 ^ (i + 1) +
            (cond (env s.reads) 1 0 * 2 ^ i + bitsVal env (s.reads + 1) i)) % 256 := by
          ring_nf

/-- Closed form of soft_i2c_read8: returns the MSB-first value of the eight
sampled environment bits, leaves SCL driven low and SDA driven at the ack
level (the line is not released), advances the read counter by eight, and
emits the release, the eight sample pulses and the ACK phase. -/
lemma soft_i2c_read8_eq (env : Nat → Bool) (ack : Bool) (s : S) :
    soft_i2c_read8 env ack s =
      (bitsVal env s.reads 8, ⟨false, ack, s.reads + 8⟩,
       read8Trace env s.reads ack) := by
  simp only [soft_i2c_read8, soft_i2c_sda_write]
  rw [soft_i2c_read8_loop_eq env 8 0 ⟨s.scl, true, s.reads⟩ (by norm_num) rfl]
  have hlt : bitsVal env s.reads 8 < 256 := bitsVal_lt env 8 s.reads
  simp [i2c_delay_us, soft_i2c_scl_write, read8Trace, readAckTail,
    Nat.mod_eq_of_lt hlt]

/-! ## Characterisation of START, STOP, the probe and the transaction -/

lemma soft_i2c_start_eq (s : S) :
    soft_i2c_start s = (⟨false, false, s.reads⟩, startTrace) := by
  simp [soft_i2c_start, soft_i2c_sda_write, i2c_delay_us, soft_i2c_scl_write,
    startTrace]

lemma soft_i2c_stop_eq (s : S) :
    soft_i2c_stop s = (⟨true, true, s.reads⟩, stopTrace) := by
  simp [soft_i2c_stop, soft_i2c_sda_write, i2c_delay_us, soft_i2c_scl_write,
    stopTrace]

/-- Closed form of i2c_device_ready: START, one byte write of the address
shifted left (R/W bit 0), STOP; the result is the negation of the sampled
ACK level and the bus is left idle (both lines released). -/
lemma i2c_device_ready_eq (env : Nat → Bool) (a : Nat) (s : S) :
    i2c_device_ready env a s =
      (!(env s.reads), ⟨true, true, s.reads + 1⟩,
       startTrace ++ write8Trace env s.reads (((a % 256) <<< 1) % 256) ++
         stopTrace) := by
  simp only [i2c_device_ready, soft_i2c_start_eq, soft_i2c_write8_eq,
    soft_i2c_stop_eq]

lemma i2c_write_read_wloop_eq (env : Nat → Bool) (mem : Nat → Nat) :
    ∀ (n p : Nat) (s : S),
      i2c_write_read_wloop env mem p n s =
        (⟨if n = 0 then s.scl else false, if n = 0 then s.sda else true,
          s.reads + n⟩,
         writePhasePulses env mem p s.reads n) := by
  intro n
  induction n with
  | zero => intro p s; simp [i2c_write_read_wloop, writePhasePulses]
  | succ n ih =>
    intro p s
    simp only [i2c_write_read_wloop]
    rw [soft_i2c_write8_eq, ih (p + 1) ⟨false, true, s.reads + 1⟩]
    simp only [Prod.mk.injEq]
    constructor
    · simp [ite_self]
      omega
    · simp [writePhasePulses]

lemma i2c_write_read_rloop_eq (env : Nat → Bool) :
    ∀ (n : Nat) (s : S),
      i2c_write_read_rloop env n s =
        (readPhaseBytes env s.reads n,
         ⟨if n = 0 then s.scl else false, if n = 0 then s.sda else false,
          s.reads + 8 * n⟩,
         readPhasePulses env s.reads n) := by
  intro n
  induction n with
  | zero => intro s; simp [i2c_write_read_rloop, readPhaseBytes, readPhasePulses]
  | succ n ih =>
    intro s
    simp only [i2c_write_read_rloop]
    rw [soft_i2c_read8_eq, ih ⟨false, false, s.reads + 8⟩]
    simp only [Prod.mk.injEq]
    refine ⟨by simp [readPhaseBytes], ?_, by simp [readPhasePulses]⟩
    simp [ite_self]
    omega

/-! ## Counting and filtering helpers -/

lemma sclRises_append (t u : List Ev) :
    sclRises (t ++ u) = sclRises t + sclRises u :=
  List.countP_append _ _ _

lemma sclFalls_append (t u : List Ev) :
    sclFalls (t ++ u) = sclFalls t + sclFalls u :=
  List.countP_append _ _ _

lemma sclRises_msbPulses (b : Nat) : ∀ i, sclRises (msbPulses b i) = i := by
  intro i
  induction i with
  | zero => simp [msbPulses, sclRises]
  | succ i ih =>
    simp only [msbPulses, sclRises_append, ih]
    simp [sclRises, bitPulse]
    omega

lemma sclFalls_msbPulses (b : Nat) : ∀ i, sclFalls (msbPulses b i) = i := by
  intro i
  induction i with
  | zero => simp [msbPulses, sclFalls]
  | succ i ih =>
    simp only [msbPulses, sclFalls_append, ih]
    simp [sclFalls, bitPulse]
    omega

/-- C1: for every byte b, soft_i2c_write8 emits exactly the eight MSB-first
bit pulses (SDA set to bit 7-k of b while SCL is low, then a full clock
pulse with no SDA write during the high phase) followed by the ACK phase
(SDA released before the ninth pulse, SDA sampled while SCL is high), the
clock line rises and falls exactly 9 times, and the returned value is the
raw level sampled during the ninth pulse (the environment bit at the
current read index, the master having released SDA). -/
theorem soft_i2c_write8_spec (env : Nat → Bool) (b : Nat) (s : S)
    (hb : b < 256) :
    soft_i2c_write8 env b s =
      (env s.reads, ⟨false, true, s.reads + 1⟩,
       msbPulses b 8 ++ writeAckTail env s.reads) ∧
    sclRises (soft_i2c_write8 env b s).2.2 = 9 ∧
    sclFalls (soft_i2c_write8 env b s).2.2 = 9 := by
  have h := soft_i2c_write8_eq env b s
  rw [Nat.mod_eq_of_lt hb] at h
  rw [h]
  refine ⟨by simp [write8Trace], ?_, ?_⟩
  · simp only [write8Trace, sclRises_append, sclRises_msbPulses]
    simp [sclRises, writeAckTail]
  · simp only [write8Trace, sclFalls_append, sclFalls_msbPulses]
    simp [sclFalls, writeAckTail]

/-- Witness for C1 at byte 0xA5 from the post-START state. -/
theorem soft_i2c_write8_spec_witness :
    sclRises (soft_i2c_write8 (fun _ => false) 0xA5 ⟨false, false, 0⟩).2.2 = 9 :=
  (soft_i2c_write8_spec (fun _ => false) 0xA5 ⟨false, false, 0⟩
    (by norm_num)).2.1

/-- C5: i2c_device_ready is exactly START, one byte write of the address
shifted left by one (whose low, direction bit is 0), STOP, and it returns
the negation of the level sampled during that write's ACK pulse (the
environment bit at the entry read index). -/
theorem i2c_device_ready_spec (env : Nat → Bool) (a : Nat) (s : S) :
    i2c_device_ready env a s =
      (!(env s.reads), ⟨true, true, s.reads + 1⟩,
       startTrace ++ write8Trace env s.reads (((a % 256) <<< 1) % 256) ++
         stopTrace) ∧
    Nat.testBit (((a % 256) <<< 1) % 256) 0 = false := by
  refine ⟨i2c_device_ready_eq env a s, ?_⟩
  rw [show (256 : Nat) = 2 ^ 8 by norm_num, Nat.testBit_mod_two_pow,
    Nat.testBit_shiftLeft]
  simp

/-- C4 counterexample: after soft_i2c_read8 with ack level false returns,
the data line is still driven low (not released), and the final emitted
event is the clock fall of the ACK pulse — no release of the data line
happens before returning, contrary to the claim. -/
theorem soft_i2c_read8_no_release :
    (soft_i2c_read8 (fun _ => true) false ⟨true, true, 0⟩).2.1.sda = false ∧
    ((soft_i2c_read8 (fun _ => true) false ⟨true, true, 0⟩).2.2).getLast? =
      some (Ev.sclW false) := by
  decide

/-- C4 (amended): soft_i2c_read8 releases SDA, samples eight bits MSB first,
drives SDA to the caller-specified ack level, pulses the clock once so the
slave can observe it, and returns the assembled byte — but it does not
release the data line afterwards: the final bus state keeps SDA driven at
the ack level, and no event follows the ACK pulse's clock fall. -/
theorem soft_i2c_read8_spec (env : Nat → Bool) (ack : Bool) (s : S) :
    soft_i2c_read8 env ack s =
      (bitsVal env s.reads 8, ⟨false, ack, s.reads + 8⟩,
       Ev.sdaW true :: (readPulses env s.reads 8 ++ readAckTail ack)) := by
  rw [soft_i2c_read8_eq]
  simp [read8Trace]

set_option maxRecDepth 4000 in
/-- The MSB-first reassembly of the bits of b is b itself, for b < 256. -/
lemma bitsVal_testBit :
    ∀ b < 256, bitsVal (fun k => Nat.testBit b (7 - k)) 0 8 = b := by
  decide

lemma sdaWrites_append (t u : List Ev) :
    sdaWrites (t ++ u) = sdaWrites t ++ sdaWrites u :=
  List.filterMap_append _ _ _

lemma sdaWrites_msbPulses8 (b : Nat) :
    sdaWrites (msbPulses b 8) =
      [Nat.testBit b 7, Nat.testBit b 6, Nat.testBit b 5, Nat.testBit b 4,
       Nat.testBit b 3, Nat.testBit b 2, Nat.testBit b 1, Nat.testBit b 0] := by
  simp [msbPulses, bitPulse, sdaWrites]

/-- C2: the eight levels soft_i2c_write8 places on the data line are the
bits of b MSB first, and feeding exactly those bits into soft_i2c_read8's
sampling loop reassembles the byte b: the two routines use the same
MSB-first bit order, so a loopback of write8 into read8 is the identity. -/
theorem write8_read8_roundtrip (b : Nat) (hb : b < 256) (env : Nat → Bool)
    (ack : Bool) (s t : S) (ht : t.reads = 0) :
    (sdaWrites (soft_i2c_write8 env b s).2.2).take 8 =
      (List.range 8).map (fun k => Nat.testBit b (7 - k)) ∧
    (soft_i2c_read8 (fun k => Nat.testBit b (7 - k)) ack t).1 = b := by
  constructor
  · have h := soft_i2c_write8_eq env b s
    rw [Nat.mod_eq_of_lt hb] at h
    rw [h]
    simp only [write8Trace, sdaWrites_append, sdaWrites_msbPulses8]
    simp [sdaWrites, writeAckTail, List.range_succ]
  · rw [soft_i2c_read8_eq, ht]
    exact bitsVal_testBit b hb

/-- Witness for C2 at byte 0x3C. -/
theorem write8_read8_roundtrip_witness :
    (soft_i2c_read8 (fun k => Nat.testBit 0x3C (7 - k)) false ⟨true, true, 0⟩).1 =
      0x3C :=
  (write8_read8_roundtrip 0x3C (by norm_num) (fun _ => true) false
    ⟨false, false, 0⟩ ⟨true, true, 0⟩ rfl).2

/-- C7: from an idle bus (both lines released high), soft_i2c_start followed
immediately by soft_i2c_stop leaves both lines released high again, emits
exactly the START events followed by the STOP events, raises the data line
during a clock-high phase exactly once — as the final event, the STOP
condition itself (the one data-line fall during a clock-high phase being
the START condition). -/
theorem start_then_stop_idle (s : S) (h1 : s.scl = true) (h2 : s.sda = true) :
    (soft_i2c_stop (soft_i2c_start s).1).1.scl = true ∧
    (soft_i2c_stop (soft_i2c_start s).1).1.sda = true ∧
    (soft_i2c_start s).2 ++ (soft_i2c_stop (soft_i2c_start s).1).2 =
      startTrace ++ stopTrace ∧
    (sdaChangesWhileHigh s.scl s.sda
        ((soft_i2c_start s).2 ++ (soft_i2c_stop (soft_i2c_start s).1).2)).filter
      (fun v => v) = [true] ∧
    ((soft_i2c_start s).2 ++
      (soft_i2c_stop (soft_i2c_start s).1).2).getLast? = some (Ev.sdaW true) := by
  rw [soft_i2c_start_eq, soft_i2c_stop_eq, h1, h2]
  exact ⟨rfl, rfl, rfl, rfl, rfl⟩

/-- Witness for C7 from the concrete idle state. -/
theorem start_then_stop_idle_witness :
    (soft_i2c_stop (soft_i2c_start ⟨true, true, 0⟩).1).1.scl = true :=
  (start_then_stop_idle ⟨true, true, 0⟩ rfl rfl).1

lemma lastSclW_append (t u : List Ev) :
    lastSclW (t ++ u) =
      ((u.filterMap fun e =>
        match e with | Ev.sclW v => some v | _ => none).getLast?).or
        (lastSclW t) := by
  simp [lastSclW, List.filterMap_append, List.getLast?_append]

lemma sdaWrites_readPulses (env : Nat → Bool) :
    ∀ (i r : Nat), sdaWrites (readPulses env r i) = [] := by
  intro i
  induction i with
  | zero => intro r; simp [readPulses, sdaWrites]
  | succ i ih =>
    intro r
    simp only [readPulses, sdaWrites_append, ih]
    simp [sdaWrites, readPulse]

lemma sdaWrites_readPhasePulses (env : Nat → Bool) :
    ∀ (n r : Nat), sdaWrites (readPhasePulses env r n) =
      List.flatten (List.replicate n [true, false]) := by
  intro n
  induction n with
  | zero => intro r; simp [readPhasePulses, sdaWrites]
  | succ n ih =>
    intro r
    have hp := sdaWrites_readPulses env 8 r
    rw [readPhasePulses, sdaWrites_append, ih, read8Trace,
      show Ev.sdaW true :: (readPulses env r 8 ++ readAckTail false) =
        [Ev.sdaW true] ++ readPulses env r 8 ++ readAckTail false from rfl,
      sdaWrites_append, sdaWrites_append, hp]
    simp [sdaWrites, readAckTail, List.replicate_succ]

/-- C3 counterexample: a one-byte read transaction to address 0x68 with an
all-releasing environment.  The master-driven SDA level at each of the 19
rising clock edges is listed: edges 1-8 are the address bits of 0xD1, edge
9 the address ACK slot (released), edges 10-17 the data-bit pulses
(released), edge 18 the received byte's ACK slot and edge 19 the STOP rise.
At edge 18 — the ACK clock pulse of the (only) received byte — the master
drives the data line LOW (the acknowledged level), not high: the claim that
the data line is at logic-high during every received byte's ACK pulse is
false, and ACK, not NACK, is asserted. -/
theorem read_phase_drives_ack_low :
    sdaAtRises true true
        (i2c_write_read (fun _ => true) 0x68 none (fun _ => 0) 0 true 1
          ⟨true, true, 0⟩).2.2.2 =
      [true, true, false, true, false, false, false, true,
       true,
       true, true, true, true, true, true, true, true,
       false,
       false] := by
  decide

/-- C3 (amended): in the read phase of i2c_write_read the master passes ack
level false (drive low) to every byte read: the transaction trace is START,
address byte with direction bit 1, then for each requested byte the read8
trace with ack level false, then STOP; and the only data-line writes the
master performs in the whole read loop are, per byte, the release (high)
before sampling and the ACK-slot drive LOW — so ACK (data low, the
acknowledged level) is driven during the acknowledgment slot of every
received byte and NACK is never driven. -/
theorem i2c_write_read_read_phase (env : Nat → Bool) (a rc : Nat)
    (mem : Nat → Nat) (s : S) (hrc : rc % 256 ≠ 0) :
    (i2c_write_read env a none mem 0 true rc s).2.2.2 =
      startTrace ++
        write8Trace env s.reads ((((a % 256) <<< 1) ||| 1) % 256) ++
        readPhasePulses env (s.reads + 1) (rc % 256) ++ stopTrace ∧
    sdaWrites (readPhasePulses env (s.reads + 1) (rc % 256)) =
      List.flatten (List.replicate (rc % 256) [true, false]) := by
  constructor
  · simp only [i2c_write_read, soft_i2c_start_eq, soft_i2c_write8_eq,
      soft_i2c_stop_eq, i2c_write_read_rloop_eq, hrc]
    simp [hrc]
  · exact sdaWrites_readPhasePulses env (rc % 256) (s.reads + 1)

/-- Witness for the amended C3 at a concrete one-byte read. -/
theorem i2c_write_read_read_phase_witness :
    sdaWrites (readPhasePulses (fun _ => true) 1 (1 % 256)) =
      List.flatten (List.replicate (1 % 256) [true, false]) :=
  (i2c_write_read_read_phase (fun _ => true) 0x68 1 (fun _ => 0)
    ⟨true, true, 0⟩ (by decide)).2

lemma ctrl_append (t u : List Ev) : ctrl (t ++ u) = ctrl t ++ ctrl u := by
  simp [ctrl]

lemma ctrl_cons_sdaW (v : Bool) (t : List Ev) :
    ctrl (Ev.sdaW v :: t) = Ev.sdaW v :: ctrl t := by
  simp [ctrl]

lemma ctrl_writeAckTail (env : Nat → Bool) (r : Nat) :
    ctrl (writeAckTail env r) =
      [Ev.sdaW true, Ev.delay I2C_SCL_LOW_DELAY, Ev.sclW true,
       Ev.delay I2C_SCL_HIGH_DELAY, Ev.sclW false] := by
  simp [ctrl, writeAckTail]

lemma ctrl_write8Trace (env env' : Nat → Bool) (r r' b : Nat) :
    ctrl (write8Trace env r b) = ctrl (write8Trace env' r' b) := by
  rw [write8Trace, write8Trace, ctrl_append, ctrl_append, ctrl_writeAckTail,
    ctrl_writeAckTail]

lemma ctrl_readPulse (v : Bool) :
    ctrl (readPulse v) =
      [Ev.delay I2C_SCL_LOW_DELAY, Ev.sclW true,
       Ev.delay I2C_SCL_HIGH_DELAY, Ev.sclW false] := by
  simp [ctrl, readPulse]

lemma ctrl_readPulses (env env' : Nat → Bool) :
    ∀ (i r r' : Nat), ctrl (readPulses env r i) = ctrl (readPulses env' r' i) := by
  intro i
  induction i with
  | zero => intro r r'; rfl
  | succ i ih =>
    intro r r'
    rw [readPulses, readPulses, ctrl_append, ctrl_append, ctrl_readPulse,
      ctrl_readPulse, ih (r + 1) (r' + 1)]

lemma ctrl_read8Trace (env env' : Nat → Bool) (r r' : Nat) (ack : Bool) :
    ctrl (read8Trace env r ack) = ctrl (read8Trace env' r' ack) := by
  rw [read8Trace, read8Trace, ctrl_cons_sdaW, ctrl_cons_sdaW, ctrl_append,
    ctrl_append, ctrl_readPulses env env' 8 r r']

lemma ctrl_writePhasePulses (env env' : Nat → Bool) (mem : Nat → Nat) :
    ∀ (n p r r' : Nat),
      ctrl (writePhasePulses env mem p r n) =
        ctrl (writePhasePulses env' mem p r' n) := by
  intro n
  induction n with
  | zero => intro p r r'; rfl
  | succ n ih =>
    intro p r r'
    rw [writePhasePulses, writePhasePulses, ctrl_append, ctrl_append,
      ctrl_write8Trace env env' r r', ih (p + 1) (r + 1) (r' + 1)]

lemma ctrl_readPhasePulses (env env' : Nat → Bool) :
    ∀ (n r r' : Nat),
      ctrl (readPhasePulses env r n) = ctrl (readPhasePulses env' r' n) := by
  intro n
  induction n with
  | zero => intro r r'; rfl
  | succ n ih =>
    intro r r'
    rw [readPhasePulses, readPhasePulses, ctrl_append, ctrl_append,
      ctrl_read8Trace env env' r r', ih (r + 8) (r' + 8)]

/-- C6: i2c_write_read always returns status 0, and neither the final bus
state nor the sequence of bus-driving actions (all events except the
sampled ACK/data levels) depends on the environment — in particular not on
any ACK level returned by soft_i2c_write8: a NACKed write proceeds exactly
as an acknowledged one and no error is surfaced. -/
theorem i2c_write_read_ignores_ack (env env' : Nat → Bool) (a : Nat)
    (wd : Option Nat) (mem : Nat → Nat) (wc : Nat) (rd : Bool) (rc : Nat)
    (s : S) :
    (i2c_write_read env a wd mem wc rd rc s).1 = 0 ∧
    (i2c_write_read env a wd mem wc rd rc s).2.2.1 =
      (i2c_write_read env' a wd mem wc rd rc s).2.2.1 ∧
    ctrl (i2c_write_read env a wd mem wc rd rc s).2.2.2 =
      ctrl (i2c_write_read env' a wd mem wc rd rc s).2.2.2 := by
  simp only [i2c_write_read, soft_i2c_start_eq, soft_i2c_write8_eq,
    soft_i2c_stop_eq, i2c_write_read_wloop_eq, i2c_write_read_rloop_eq]
  cases wd with
  | none =>
    by_cases hrc : (rd && decide (rc % 256 ≠ 0)) = true
    · simp only [if_pos hrc]
      refine ⟨by trivial, by trivial, ?_⟩
      simp only [ctrl_append]
      rw [ctrl_write8Trace env env' s.reads s.reads
          ((((a % 256) <<< 1) ||| 1) % 256),
        ctrl_readPhasePulses env env' (rc % 256) (s.reads + 1) (s.reads + 1)]
    · simp only [if_neg hrc]
      exact ⟨by trivial, by trivial, by trivial⟩
  | some p =>
    by_cases hwc : wc % 256 ≠ 0
    · simp only [if_pos hwc]
      by_cases hrc : (rd && decide (rc % 256 ≠ 0)) = true
      · simp only [if_pos hrc]
        refine ⟨by trivial, by trivial, ?_⟩
        simp only [ctrl_append]
        rw [ctrl_write8Trace env env' s.reads s.reads (((a % 256) <<< 1) % 256),
          ctrl_writePhasePulses env env' mem (wc % 256) p (s.reads + 1)
            (s.reads + 1),
          ctrl_write8Trace env env' (s.reads + 1 + wc % 256)
            (s.reads + 1 + wc % 256) ((((a % 256) <<< 1) ||| 1) % 256),
          ctrl_readPhasePulses env env' (rc % 256)
            (s.reads + 1 + wc % 256 + 1) (s.reads + 1 + wc % 256 + 1)]
      · simp only [if_neg hrc]
        refine ⟨by trivial, by trivial, ?_⟩
        simp only [ctrl_append]
        rw [ctrl_write8Trace env env' s.reads s.reads (((a % 256) <<< 1) % 256),
          ctrl_writePhasePulses env env' mem (wc % 256) p (s.reads + 1)
            (s.reads + 1)]
    · simp only [if_neg hwc]
      by_cases hrc : (rd && decide (rc % 256 ≠ 0)) = true
      · simp only [if_pos hrc]
        refine ⟨by trivial, by trivial, ?_⟩
        simp only [ctrl_append]
        rw [ctrl_write8Trace env env' s.reads s.reads
            ((((a % 256) <<< 1) ||| 1) % 256),
          ctrl_readPhasePulses env env' (rc % 256) (s.reads + 1) (s.reads + 1)]
      · simp only [if_neg hrc]
        exact ⟨by trivial, by trivial, by trivial⟩

/-- C8: i2c_write_read skips a phase entirely when its pointer is NULL or
its count (a uint8_t) is zero: a skipped write phase makes the call equal to
one with no write buffer at all, for any memory whatsoever (no memory is
accessed); a skipped read phase makes it equal to a call with no read
request; with both phases skipped the call returns status 0, reads nothing,
leaves the bus state untouched and emits no event at all. -/
theorem i2c_write_read_skips (env : Nat → Bool) (a : Nat) (wd : Option Nat)
    (mem mem' : Nat → Nat) (wc : Nat) (rd : Bool) (rc : Nat) (s : S) :
    ((wd = none ∨ wc % 256 = 0) →
      i2c_write_read env a wd mem wc rd rc s =
        i2c_write_read env a none mem' 0 rd rc s) ∧
    ((rd = false ∨ rc % 256 = 0) →
      i2c_write_read env a wd mem wc rd rc s =
        i2c_write_read env a wd mem wc false 0 s) ∧
    ((wd = none ∨ wc % 256 = 0) → (rd = false ∨ rc % 256 = 0) →
      i2c_write_read env a wd mem wc rd rc s = (0, [], s, [])) := by
  have hw : (wd = none ∨ wc % 256 = 0) →
      i2c_write_read env a wd mem wc rd rc s =
        i2c_write_read env a none mem' 0 rd rc s := by
    rintro (h | h)
    · subst h; rfl
    · cases wd with
      | none => rfl
      | some p => simp [i2c_write_read, h]
  have hr : ∀ (wd' : Option Nat) (mem2 : Nat → Nat) (wc' : Nat),
      (rd = false ∨ rc % 256 = 0) →
      i2c_write_read env a wd' mem2 wc' rd rc s =
        i2c_write_read env a wd' mem2 wc' false 0 s := by
    rintro wd' mem2 wc' (h | h)
    · subst h; rfl
    · simp [i2c_write_read, h]
  have hnone : i2c_write_read env a none mem' 0 false 0 s = (0, [], s, []) := rfl
  exact ⟨hw, hr wd mem wc, fun h1 h2 => by
    rw [hw h1, hr none mem' 0 h2, hnone]⟩

/-- Witness for C8 with both phases absent. -/
theorem i2c_write_read_skips_witness :
    i2c_write_read (fun _ => true) 0x50 none (fun _ => 0) 0 false 0
        ⟨true, true, 0⟩ = (0, [], ⟨true, true, 0⟩, []) :=
  ((i2c_write_read_skips (fun _ => true) 0x50 none (fun _ => 0) (fun _ => 0) 0
    false 0 ⟨true, true, 0⟩).2.2) (Or.inl rfl) (Or.inl rfl)

lemma cl_i2c_scan_loop_probes (env : Nat → Bool) :
    ∀ (fuel addr : Nat) (s : S),
      (cl_i2c_scan_loop env addr fuel s).1 =
        (List.range' addr fuel).filter
          (fun x => decide (I2C_ADDRESS_MIN ≤ x) &&
            decide (x ≤ I2C_ADDRESS_MAX)) := by
  intro fuel
  induction fuel with
  | zero => intro addr s; rfl
  | succ fuel ih =>
    intro addr s
    rw [List.range'_succ]
    simp only [cl_i2c_scan_loop]
    by_cases h : addr < I2C_ADDRESS_MIN ∨ I2C_ADDRESS_MAX < addr
    · have hb : (decide (addr < I2C_ADDRESS_MIN) ||
          decide (addr > I2C_ADDRESS_MAX)) = true := by
        rcases h with h | h <;> simp [h]
      rw [if_pos hb]
      have hf : (decide (I2C_ADDRESS_MIN ≤ addr) &&
          decide (addr ≤ I2C_ADDRESS_MAX)) = false := by
        simp only [I2C_ADDRESS_MIN, I2C_ADDRESS_MAX] at h ⊢
        rcases h with h | h <;> simp <;> omega
      rcases e : cl_i2c_scan_loop env (addr + 1) fuel s with ⟨ps, cs, s1, t⟩
      have := ih (addr + 1) s
      rw [e] at this
      simp at this
      simp [List.filter_cons, hf, this]
    · have hb : ¬((decide (addr < I2C_ADDRESS_MIN) ||
          decide (addr > I2C_ADDRESS_MAX)) = true) := by
        simp only [I2C_ADDRESS_MIN, I2C_ADDRESS_MAX] at h ⊢
        simp
        omega
      rw [if_neg hb]
      have hf : (decide (I2C_ADDRESS_MIN ≤ addr) &&
          decide (addr ≤ I2C_ADDRESS_MAX)) = true := by
        simp only [I2C_ADDRESS_MIN, I2C_ADDRESS_MAX] at h ⊢
        simp
        omega
      rcases d : i2c_device_ready env addr s with ⟨rdy, s1, t1⟩
      rcases e : cl_i2c_scan_loop env (addr + 1) fuel s1 with ⟨ps, cs, s2, t2⟩
      have := ih (addr + 1) s1
      rw [e] at this
      simp at this
      simp [List.filter_cons, hf, this]

lemma cl_i2c_scan_loop_cells (env : Nat → Bool) :
    ∀ (fuel addr k : Nat) (s : S), k < fuel →
      ((cl_i2c_scan_loop env addr fuel s).2.1[k]? = some Cell.oor ↔
        (addr + k < I2C_ADDRESS_MIN ∨ I2C_ADDRESS_MAX < addr + k)) := by
  intro fuel
  induction fuel with
  | zero => intro addr k s hk; omega
  | succ fuel ih =>
    intro addr k s hk
    simp only [cl_i2c_scan_loop]
    by_cases h : addr < I2C_ADDRESS_MIN ∨ I2C_ADDRESS_MAX < addr
    · have hb : (decide (addr < I2C_ADDRESS_MIN) ||
          decide (addr > I2C_ADDRESS_MAX)) = true := by
        rcases h with h | h <;> simp [h]
      rw [if_pos hb]
      rcases e : cl_i2c_scan_loop env (addr + 1) fuel s with ⟨ps, cs, s1, t⟩
      cases k with
      | zero =>
        simpa using h
      | succ k =>
        have hrec := ih (addr + 1) k s (by omega)
        rw [e] at hrec
        rw [show addr + (k + 1) = addr + 1 + k by omega]
        simpa using hrec
    · have hb : ¬((decide (addr < I2C_ADDRESS_MIN) ||
          decide (addr > I2C_ADDRESS_MAX)) = true) := by
        simp only [I2C_ADDRESS_MIN, I2C_ADDRESS_MAX] at h ⊢
        simp
        omega
      rw [if_neg hb]
      rcases d : i2c_device_ready env addr s with ⟨rdy, s1, t1⟩
      rcases e : cl_i2c_scan_loop env (addr + 1) fuel s1 with ⟨ps, cs, s2, t2⟩
      cases k with
      | zero =>
        simp only [I2C_ADDRESS_MIN, I2C_ADDRESS_MAX] at h
        cases rdy <;> simp [I2C_ADDRESS_MIN, I2C_ADDRESS_MAX] <;> omega
      | succ k =>
        have hrec := ih (addr + 1) k s1 (by omega)
        rw [e] at hrec
        rw [show addr + (k + 1) = addr + 1 + k by omega]
        simpa using hrec

/-- C9: the bus scan probes (calls i2c_device_ready on) exactly the
addresses in [I2C_ADDRESS_MIN, I2C_ADDRESS_MAX] = [0x03, 0x77]; any address
outside that range is never probed — the scan never touches the bus for it
— and, within the walked range 0x00-0x77, is displayed as an out-of-range
cell instead. -/
theorem cl_i2c_scan_range (env : Nat → Bool) (s : S) (a : Nat) :
    (a ∈ (cl_i2c_scan env s).1 ↔
      (I2C_ADDRESS_MIN ≤ a ∧ a ≤ I2C_ADDRESS_MAX)) ∧
    (a < I2C_ADDRESS_MAX + 1 →
      ((cl_i2c_scan env s).2.1[a]? = some Cell.oor ↔ a < I2C_ADDRESS_MIN)) := by
  constructor
  · rw [cl_i2c_scan, cl_i2c_scan_loop_probes env (I2C_ADDRESS_MAX + 1) 0 s]
    simp only [List.mem_filter, List.mem_range']
    simp only [I2C_ADDRESS_MIN, I2C_ADDRESS_MAX]
    simp
    omega
  · intro ha
    have := cl_i2c_scan_loop_cells env (I2C_ADDRESS_MAX + 1) 0 a s ha
    rw [cl_i2c_scan]
    rw [this]
    simp only [I2C_ADDRESS_MIN, I2C_ADDRESS_MAX] at ha ⊢
    omega

/-- Witness for C9 at address 0x00: displayed as out of range, not probed. -/
theorem cl_i2c_scan_range_witness :
    (cl_i2c_scan (fun _ => true) ⟨true, true, 0⟩).2.1[0]? = some Cell.oor := by
  have h := (cl_i2c_scan_range (fun _ => true) ⟨true, true, 0⟩ 0).2
    (by norm_num [I2C_ADDRESS_MAX])
  exact h.mpr (by norm_num [I2C_ADDRESS_MIN])

/-- C10: soft_i2c_start, soft_i2c_write8 (every byte) and soft_i2c_read8
(every ack argument) all return with the clock line driven low, and their
last write to the clock line is a drive-low; only soft_i2c_stop leaves the
clock line released high, its last clock write being the release.  Hence
the clock-low-on-entry precondition of byte operations and of STOP is
re-established after every step of a transaction. -/
theorem clock_low_reestablished (env : Nat → Bool) (b : Nat) (ack : Bool)
    (s : S) :
    (soft_i2c_start s).1.scl = false ∧
    lastSclW (soft_i2c_start s).2 = some false ∧
    (soft_i2c_write8 env b s).2.1.scl = false ∧
    lastSclW (soft_i2c_write8 env b s).2.2 = some false ∧
    (soft_i2c_read8 env ack s).2.1.scl = false ∧
    lastSclW (soft_i2c_read8 env ack s).2.2 = some false ∧
    (soft_i2c_stop s).1.scl = true ∧
    lastSclW (soft_i2c_stop s).2 = some true := by
  rw [soft_i2c_start_eq, soft_i2c_write8_eq, soft_i2c_read8_eq,
    soft_i2c_stop_eq]
  refine ⟨rfl, rfl, rfl, ?_, rfl, ?_, rfl, rfl⟩
  · simp [write8Trace, lastSclW_append, writeAckTail]
  · simp [read8Trace, lastSclW, List.filterMap_append, List.getLast?_append,
      readAckTail]
